import Mathlib

/-!
Verification of the Moltr Wallet coordination backend (Tags, Receipts, Objects).

This file gives a shallow embedding, in Lean 4, of the API surface implemented
in `apps/api/src` (auth.ts, routes/tags.ts, routes/receipts.ts, routes/objects.ts,
lib/storage.ts) and proves the key functional, error-handling and security
properties of that code.

Modelling conventions:
- JavaScript strings are modelled as Lean `String` at the character level.
- Machine numbers: request `amountLamports` values are integer-valued JS
  numbers, modelled as `Int`; the `BigInt` database column is modelled as
  `Int` (exact); the lossy `Number(bigint)` readback conversion is modelled
  explicitly by `jsNumberFromBigInt` (round to nearest, ties to even, at 53
  bits of precision).
- Async/failure: functions that can reject are modelled in `Except String`.
- The relational store is modelled as in-memory lists (`DB`); `findMany`
  with `orderBy createdAt desc` is modelled as a stable sort of the table
  list, whose order abstracts the store's physical row order (SQL leaves
  the relative order of ties unspecified); `findUnique` is `List.find?`.
-/

namespace Moltr

/-! ## String helpers (character-level models of the JS string operations) -/

/-- Character-level model of JS `String.prototype.trim` restricted to the
common whitespace characters (space, tab, newline, carriage return). -/
def jsWhitespace (c : Char) : Bool :=
  c = ' ' || c = '\t' || c = '\n' || c = '\r'

/-- Model of JS `trim()`: remove leading and trailing whitespace. -/
def jsTrim (s : String) : String :=
  ⟨((s.toList.dropWhile jsWhitespace).reverse.dropWhile jsWhitespace).reverse⟩

/-- ASCII fragment of JS `toLowerCase()` (usernames are validated against
an ASCII character class, so only the A–Z range matters here). -/
def asciiLowerChar (c : Char) : Char :=
  if 'A' ≤ c ∧ c ≤ 'Z' then Char.ofNat (c.toNat + 32) else c

/-- ASCII fragment of JS `toLowerCase()` on a whole string. -/
def asciiLower (s : String) : String :=
  ⟨s.toList.map asciiLowerChar⟩

/-- Numeric value of a list of decimal digit characters. -/
def digitsToNat (cs : List Char) : Nat :=
  cs.foldl (fun acc c => 10 * acc + (c.toNat - '0'.toNat)) 0

/-- Model of JS `parseInt(s, 10)`: skip leading whitespace, read an optional
sign and then the longest prefix of decimal digits; `none` models `NaN`
(no digits). Digits after the numeric prefix are ignored, as in JS. -/
def jsParseInt (s : String) : Option Int :=
  let cs := s.toList.dropWhile jsWhitespace
  let signAndRest : Int × List Char :=
    match cs with
    | '-' :: t => (-1, t)
    | '+' :: t => (1, t)
    | t => (1, t)
  let digits := signAndRest.2.takeWhile Char.isDigit
  if digits.isEmpty then none
  else some (signAndRest.1 * (digitsToNat digits : Int))

/-- Model of `s.startsWith(p)` at the character level. -/
def strStarts (s p : String) : Bool :=
  p.toList.isPrefixOf s.toList

/-- Model of `s.endsWith(p)` at the character level. -/
def strEnds (s p : String) : Bool :=
  p.toList.isSuffixOf s.toList

/-- Drop the first `n` characters of a string. -/
def strDrop (s : String) (n : Nat) : String :=
  ⟨s.toList.drop n⟩

/-- Drop the last `n` characters of a string. -/
def strDropRight (s : String) (n : Nat) : String :=
  ⟨s.toList.take (s.toList.length - n)⟩

/-- Model of the regex replace `/\/$/` used for URL bases: remove one
trailing slash if present. -/
def stripOneTrailingSlash (s : String) : String :=
  if strEnds s "/" then strDropRight s 1 else s

/-- Model of the regex replace `/^\/+/` used on object keys: remove every
leading slash. -/
def stripLeadingSlashes (s : String) : String :=
  ⟨s.toList.dropWhile (· = '/')⟩

/-! ## Data model

Mirrors `prisma/migrations/20250201000000_init/migration.sql`:
table `Tag(id, username, walletAddress, apiKeyHash, createdAt)` with a unique
index on `username`, and table
`Receipt(id, signature, memo, fromTagId, toTagId, amountLamports BIGINT, createdAt)`.
`createdAt` timestamps are modelled as `Nat` (milliseconds). -/

structure Tag where
  id : String
  username : String
  walletAddress : String
  apiKeyHash : String
  createdAt : Nat
deriving DecidableEq, Repr

structure Receipt where
  id : String
  signature : String
  memo : String
  fromTagId : String
  toTagId : String
  amountLamports : Int
  createdAt : Nat
deriving DecidableEq, Repr

/-- The relational store (Prisma client state). -/
structure DB where
  tags : List Tag
  receipts : List Receipt
deriving DecidableEq, Repr

/-- The `{ id, username }` projection attached to the request context by
`requireApiKey` (`request.tag`). -/
structure TagRef where
  id : String
  username : String
deriving DecidableEq, Repr

/-! ## Key Verifier (`lib/auth.ts`)

`verifyApiKey(plain, hash)` delegates to the external `argon2.verify(hash,
plain)` with no exception handling. The argon2 npm package first
deserializes `hash` in PHC string format and *throws* when the input is
malformed — the deserializer requires the string to begin with the `$`
separator (error: `pchstr must contain a $ as first char`). The actual hash
comparison is a cryptographic computation external to this repository and is
abstracted as the `hashMatches : String → String → Bool` parameter (arguments:
stored hash, presented plain secret). -/

/-- Error message raised by the PHC-format deserializer of the external
argon2 dependency on malformed input. -/
def phcErrorMessage : String := "pchstr must contain a $ as first char"

/-- Fragment of the PHC well-formedness check performed by the external
argon2 deserializer: a PHC string must begin with the `$` separator.
(The real deserializer enforces more structure; only this fragment is
needed, because every refutation below uses hashes without the prefix and
every genuine argon2 output does carry it.) -/
def phcDeserializes (hash : String) : Bool :=
  strStarts hash "$"

/-- Model of the external `argon2.verify(hash, plain)`: deserialization of a
malformed hash throws; on a well-formed hash the abstracted comparison
`hashMatches` decides the result. -/
def argon2Verify (hashMatches : String → String → Bool) (hash plain : String) :
    Except String Bool :=
  if phcDeserializes hash then .ok (hashMatches hash plain)
  else .error phcErrorMessage

/-- `verifyApiKey` from `lib/auth.ts` (lines 17–19): a direct delegate to
`argon2.verify(hash, plain)`, with no `try`/`catch`. -/
def verifyApiKey (hashMatches : String → String → Bool) (plain hash : String) :
    Except String Bool :=
  argon2Verify hashMatches hash plain

/-! ## Identity Resolver (`lib/auth.ts`, lines 29–37) -/

/-- The credential scan loop of `resolveTagFromApiKey`: for each stored tag
in order, verify the presented key against the stored hash; return the
first `{ id, username }` that verifies; errors from `verifyApiKey`
propagate (there is no `try`/`catch` in the source). -/
def resolveScan (hashMatches : String → String → Bool) (apiKey : String) :
    List Tag → Except String (Option TagRef)
  | [] => .ok none
  | t :: ts =>
    match verifyApiKey hashMatches apiKey t.apiKeyHash with
    | .error e => .error e
    | .ok true => .ok (some ⟨t.id, t.username⟩)
    | .ok false => resolveScan hashMatches apiKey ts

/-- `resolveTagFromApiKey` from `lib/auth.ts`: reject (return `null`) when
the key is absent or shorter than 16 characters (`!apiKey` also rejects the
empty string, which the length check covers; the `typeof` guard is carried
by the `Option String` type); otherwise fetch every tag (`findMany`) and
scan. -/
def resolveTagFromApiKey (hashMatches : String → String → Bool)
    (apiKey : Option String) (tags : List Tag) : Except String (Option TagRef) :=
  match apiKey with
  | none => .ok none
  | some k =>
    if k.length < 16 then .ok none
    else resolveScan hashMatches k tags

/-! ## JS number / BigInt conversion

`routes/receipts.ts` stores `BigInt(amountLamports)` (exact, the input being
an integer-valued JS number) and reads it back with `Number(r.amountLamports)`
in `toReceiptItem`. `Number` on a BigInt rounds to the nearest IEEE-754
double (ties to even); it is exact precisely on integers representable as a
double. -/

/-- An integer is representable as an IEEE-754 double (binary64): it equals
`m * 2^e` with `|m| < 2^53`. Every integer-valued JS number — in particular
every `amountLamports` accepted by the API — is of this form. (Values at or
beyond `2^1024` overflow to Infinity; they are far outside this set only in
the sense of magnitude and never arise here.) -/
def IsFloat64Int (a : Int) : Prop :=
  ∃ (m : Int) (e : Nat), a = m * 2 ^ e ∧ m.natAbs < 2 ^ 53

/-- Model of the JS conversion `Number(bigint)`: round to the nearest
integer with at most 53 significant bits, ties to even. Exact (the
identity) on `IsFloat64Int` values. -/
def jsNumberFromBigInt (a : Int) : Int :=
  let n := a.natAbs
  if n < 2 ^ 53 then a
  else
    let e := n.log2 - 52
    let q := n / 2 ^ e
    let r := n % 2 ^ e
    let q' := if 2 ^ (e - 1) < r ∨ (r = 2 ^ (e - 1) ∧ q % 2 = 1) then q + 1 else q
    a.sign * (q' * 2 ^ e)

/-! ## Tags routes (`routes/tags.ts`) -/

/-- The `{ username, walletAddress }` projection returned by the tag read
operations (the Prisma `select` in the handlers). -/
structure TagPublic where
  username : String
  walletAddress : String
deriving DecidableEq, Repr

/-- `prisma.tag.findUnique({ where: { username } })` (the `username` column
carries a unique index). -/
def findTagByUsername (tags : List Tag) (u : String) : Option Tag :=
  tags.find? (fun t => t.username = u)

/-- The username character class `/^[a-z0-9_]+$/`. -/
def usernameCharOk (c : Char) : Bool :=
  ('a' ≤ c ∧ c ≤ 'z') ∨ ('0' ≤ c ∧ c ≤ '9') ∨ c = '_'

/-- Response of `GET /tags/:username`. -/
inductive GetTagResponse where
  /-- 400 `Invalid username` -/
  | invalidUsername
  /-- 404 `Tag not found` -/
  | notFound
  /-- 200 with the public projection -/
  | ok (t : TagPublic)
deriving DecidableEq, Repr

/-- `GET /tags/:username` handler (`routes/tags.ts` lines 148–162):
lowercase the parameter, validate length 3–20 and charset, then exact
`findUnique` lookup selecting only `username` and `walletAddress`. -/
def getTagByUsername (db : DB) (rawUsername : String) : GetTagResponse :=
  let username := asciiLower rawUsername
  if ¬ (3 ≤ username.length ∧ username.length ≤ 20 ∧
        username.toList.all usernameCharOk) then .invalidUsername
  else
    match findTagByUsername db.tags username with
    | none => .notFound
    | some t => .ok ⟨t.username, t.walletAddress⟩

/-- Response of `PATCH /tags/me`. -/
inductive UpdateWalletResponse where
  /-- 400 `Validation failed` (empty walletAddress) -/
  | validationFailed
  /-- 500: `prisma.tag.update` rejected because the row is gone (cannot
  happen for a resolved identity; modelled for totality) -/
  | updateFailed
  /-- 200 with the updated public projection -/
  | ok (t : TagPublic)
deriving DecidableEq, Repr

/-- `PATCH /tags/me` handler (`routes/tags.ts` lines 110–124): validate the
body (`walletAddress` nonempty), then update the caller's own row by
`reqTag.id` and return the selected `{ username, walletAddress }`. -/
def updateWallet (db : DB) (reqTag : TagRef) (walletAddress : String) :
    UpdateWalletResponse × DB :=
  if walletAddress.length < 1 then (.validationFailed, db)
  else
    match db.tags.find? (fun t => t.id = reqTag.id) with
    | none => (.updateFailed, db)
    | some t =>
      let tags' := db.tags.map (fun u =>
        if u.id = reqTag.id then { u with walletAddress := walletAddress } else u)
      (.ok ⟨t.username, walletAddress⟩, { db with tags := tags' })

/-! ## Receipts routes (`routes/receipts.ts`) -/

/-- `RECEIPT_BASE_URL` (default value of the environment variable). -/
def RECEIPT_BASE_URL : String := "https://api.moltr.app/r"

/-- The derived public URL `${RECEIPT_BASE_URL.replace(/\/$/, "")}/${id}`. -/
def receiptUrl (id : String) : String :=
  stripOneTrailingSlash RECEIPT_BASE_URL ++ "/" ++ id

/-- `DEFAULT_LIMIT` from `routes/receipts.ts`. -/
def DEFAULT_LIMIT : Nat := 20

/-- `MAX_LIMIT` from `routes/receipts.ts`. -/
def MAX_LIMIT : Nat := 100

/-- Username of the tag row with the given id (the Prisma `include` join on
the `fromTagId`/`toTagId` foreign keys; the FK constraint guarantees the row
exists, so the default is never taken on a well-formed store). -/
def usernameOfTagId (tags : List Tag) (tagId : String) : String :=
  ((tags.find? (fun t => t.id = tagId)).map Tag.username).getD ""

/-- The JSON item built by `toReceiptItem` (`routes/receipts.ts` lines
116–135). `createdAt.toISOString()` is modelled by the timestamp itself
(the rendering is injective and carries no further information). -/
structure ReceiptItem where
  id : String
  signature : String
  memo : String
  fromTag : String
  toTag : String
  amountLamports : Int
  createdAt : Nat
  url : String
deriving DecidableEq, Repr

/-- `toReceiptItem`: project a joined receipt row to the response item;
`amountLamports` goes through the lossy `Number(bigint)` conversion. -/
def toReceiptItem (tags : List Tag) (r : Receipt) : ReceiptItem :=
  { id := r.id
    signature := r.signature
    memo := r.memo
    fromTag := usernameOfTagId tags r.fromTagId
    toTag := usernameOfTagId tags r.toTagId
    amountLamports := jsNumberFromBigInt r.amountLamports
    createdAt := r.createdAt
    url := receiptUrl r.id }

/-- The `zod` body of `POST /receipts/create` (`createBody`, lines 103–109):
`signature`, `fromTag`, `toTag` are strings with `min(1)`, `memo` a string
with `min(0)`, `amountLamports` a number with `.int().nonnegative()` (the
`.int()` refinement is carried by the `Int` type). -/
structure CreateBody where
  signature : String
  memo : String
  fromTag : String
  toTag : String
  amountLamports : Int
deriving DecidableEq, Repr

/-- `createBody.safeParse` success condition. -/
def createBodyValid (b : CreateBody) : Bool :=
  1 ≤ b.signature.length ∧ 1 ≤ b.fromTag.length ∧ 1 ≤ b.toTag.length ∧
  0 ≤ b.amountLamports

/-- Response of `POST /receipts/create`. -/
inductive CreateResponse where
  /-- 400 `Validation failed` -/
  | validationFailed
  /-- 403 `Only fromTag or toTag API key can create this receipt` -/
  | forbidden
  /-- 400 `fromTag or toTag not found` -/
  | partyNotFound
  /-- 201 with `{ id, url }` -/
  | created (id : String) (url : String)
deriving DecidableEq, Repr

/-- `POST /receipts/create` handler (`routes/receipts.ts` lines 173–203):
parse the body; require the resolved identity's username to equal the named
`fromTag` or `toTag` (403 otherwise); require both named usernames to exist
(400 otherwise); then create the row (`BigInt(amountLamports)` stores the
value exactly) and return `{ id, url }`. `freshId` is the id generated by
the store for the new row and `now` its `createdAt` timestamp. -/
def createReceipt (db : DB) (reqTag : TagRef) (b : CreateBody)
    (freshId : String) (now : Nat) : CreateResponse × DB :=
  if ¬ createBodyValid b then (.validationFailed, db)
  else if reqTag.username ≠ b.fromTag ∧ reqTag.username ≠ b.toTag then
    (.forbidden, db)
  else
    match findTagByUsername db.tags b.fromTag, findTagByUsername db.tags b.toTag with
    | some ft, some tt =>
      let r : Receipt :=
        { id := freshId, signature := b.signature, memo := b.memo
          fromTagId := ft.id, toTagId := tt.id
          amountLamports := b.amountLamports, createdAt := now }
      (.created freshId (receiptUrl freshId), { db with receipts := db.receipts ++ [r] })
    | _, _ => (.partyNotFound, db)

/-! ### Listing and pagination -/

/-- The `where` filter of the receipt queries: the authenticated tag is
`fromTagId` or `toTagId`. -/
def isParty (tagId : String) (r : Receipt) : Bool :=
  r.fromTagId = tagId ∨ r.toTagId = tagId

/-- The ordering key of `orderBy: { createdAt: "desc" }`. -/
def createdDesc (a b : Receipt) : Prop :=
  b.createdAt ≤ a.createdAt

instance : DecidableRel createdDesc := fun _ _ => Nat.decLe _ _

instance : IsTotal Receipt createdDesc :=
  ⟨fun a b => (Nat.le_total b.createdAt a.createdAt).elim Or.inl Or.inr⟩

instance : IsTrans Receipt createdDesc :=
  ⟨fun _ _ _ hab hbc => Nat.le_trans hbc hab⟩

/-- `prisma.receipt.findMany({ where: OR[fromTagId, toTagId], orderBy:
{ createdAt: "desc" } })`, before pagination. The source specifies no
secondary sort key, so rows with equal `createdAt` come back in the store's
row order; this is modelled by a stable sort of the table list (the list
order of `DB.receipts` abstracts the physical row order). -/
def receiptsQuery (db : DB) (tagId : String) : List Receipt :=
  List.insertionSort createdDesc (db.receipts.filter (isParty tagId))

/-- Prisma cursor positioning: the rows of the ordered, filtered result
that come strictly after the row whose id is the cursor (`cursor: { id },
skip: 1`); all rows when no cursor is given; no rows when the cursor id is
not present (Prisma finds no row to anchor on and returns nothing). -/
def afterCursor (l : List Receipt) : Option String → List Receipt
  | none => l
  | some c =>
    match l.findIdx? (fun r => r.id = c) with
    | some i => l.drop (i + 1)
    | none => []

/-- `limit` computation of the list handler (lines 249–252):
`Math.min(MAX_LIMIT, Math.max(1, parseInt(q ?? "20", 10) || DEFAULT_LIMIT))`.
Note `||` replaces both `NaN` and `0` (falsy) by the default. -/
def effectiveLimit (q : Option String) : Nat :=
  let parsed : Int :=
    match q with
    | none => 20
    | some s =>
      match jsParseInt s with
      | none => (DEFAULT_LIMIT : Int)
      | some n => if n = 0 then (DEFAULT_LIMIT : Int) else n
  (min (MAX_LIMIT : Int) (max 1 parsed)).toNat

/-- `cursor` computation of the list handler (line 253):
`request.query.cursor?.trim() || undefined`. -/
def parseCursor (q : Option String) : Option String :=
  match q with
  | none => none
  | some s => let t := jsTrim s; if t = "" then none else some t

/-- Query string of `GET /receipts/`. -/
structure ListQuery where
  limit : Option String
  cursor : Option String
deriving DecidableEq, Repr

/-- Response of `GET /receipts/`; `nextCursor` is omitted (`none`) when no
further results exist. -/
structure ListResponse where
  items : List ReceiptItem
  nextCursor : Option String
deriving DecidableEq, Repr

/-- `GET /receipts/` handler (`routes/receipts.ts` lines 247–273): fetch
`limit + 1` rows after the cursor, return the first `limit` as items, and
set `nextCursor` to the last returned id exactly when an extra row was
fetched. -/
def listReceipts (db : DB) (reqTag : TagRef) (q : ListQuery) : ListResponse :=
  let limit := effectiveLimit q.limit
  let cursor := parseCursor q.cursor
  let receipts := (afterCursor (receiptsQuery db reqTag.id) cursor).take (limit + 1)
  let hasMore : Bool := limit < receipts.length
  let items := (receipts.take limit).map (toReceiptItem db.tags)
  let nextCursor : Option String :=
    if hasMore ∧ 0 < items.length then items.getLast?.map ReceiptItem.id else none
  { items := items, nextCursor := nextCursor }

/-! ### Get by id -/

/-- `prisma.receipt.findUnique({ where: { id } })`. -/
def findReceipt (db : DB) (id : String) : Option Receipt :=
  db.receipts.find? (fun r => r.id = id)

/-- Response of `GET /receipts/:id`. -/
inductive GetReceiptResponse where
  /-- 404 with the given message -/
  | notFound (message : String)
  /-- 200 with the item -/
  | ok (item : ReceiptItem)
deriving DecidableEq, Repr

/-- `GET /receipts/:id` handler (`routes/receipts.ts` lines 304–323): look
the row up by id; answer 404 `Receipt not found` when it does not exist,
and the *same* 404 when the authenticated tag is neither `fromTagId` nor
`toTagId`; otherwise return the item. -/
def getReceiptById (db : DB) (reqTag : TagRef) (id : String) : GetReceiptResponse :=
  match findReceipt db id with
  | none => .notFound "Receipt not found"
  | some r =>
    if r.fromTagId ≠ reqTag.id ∧ r.toTagId ≠ reqTag.id then
      .notFound "Receipt not found"
    else .ok (toReceiptItem db.tags r)

/-! ### Following the pagination chain -/

/-- Issue list requests page after page, feeding each response's
`nextCursor` back as the next request's `cursor`, and concatenate the
items. `fuel` bounds the number of requests (the theorems supply enough for
the chain to finish on its own). -/
def collectPages (db : DB) (reqTag : TagRef) (limitParam : Option String) :
    Option String → Nat → List ReceiptItem
  | _, 0 => []
  | cursorParam, fuel + 1 =>
    let resp := listReceipts db reqTag ⟨limitParam, cursorParam⟩
    resp.items ++
      match resp.nextCursor with
      | none => []
      | some c => collectPages db reqTag limitParam (some c) fuel

/-! ## Credential-hash erasure (for the confidentiality property)

Read responses must not depend on the stored `apiKeyHash` column: erasing
every hash from the store must leave them unchanged. -/

/-- Replace every stored credential hash by the empty string. -/
def eraseApiKeyHashes (db : DB) : DB :=
  { db with tags := db.tags.map (fun t => { t with apiKeyHash := "" }) }

/-! ## Objects route (`routes/objects.ts`, `lib/storage.ts`) -/

/-- `MAX_BODY_SIZE` (2 MB). -/
def MAX_BODY_SIZE : Nat := 2 * 1024 * 1024

/-- Value of a hexadecimal digit character, if any. -/
def hexDigitVal (c : Char) : Option Nat :=
  if '0' ≤ c ∧ c ≤ '9' then some (c.toNat - '0'.toNat)
  else if 'a' ≤ c ∧ c ≤ 'f' then some (c.toNat - 'a'.toNat + 10)
  else if 'A' ≤ c ∧ c ≤ 'F' then some (c.toNat - 'A'.toNat + 10)
  else none

/-- ASCII fragment of JS `decodeURIComponent`: decode `%XX` escapes with a
value below 128; `none` models the thrown `URIError` on a malformed escape,
and also stands in for multi-byte UTF-8 escape sequences, which the allowed
key patterns cannot contain and which are not modelled further. Characters
other than `%` pass through unchanged. -/
def decodeUriComponentChars : List Char → Option (List Char)
  | [] => some []
  | '%' :: a :: b :: rest =>
    match hexDigitVal a, hexDigitVal b with
    | some x, some y =>
      if 16 * x + y < 128 then
        (decodeUriComponentChars rest).map (Char.ofNat (16 * x + y) :: ·)
      else none
    | _, _ => none
  | '%' :: _ => none
  | c :: rest => (decodeUriComponentChars rest).map (c :: ·)

/-- ASCII fragment of JS `decodeURIComponent` on a string. -/
def jsDecodeUriComponent (s : String) : Option String :=
  (decodeUriComponentChars s.toList).map List.asString

/-- One alternative of the key regex `/^tokens\/[^/]+\/(logo\.png|metadata\.json)$/`:
the key is `tokens/<mid>/<suffix>` with `<mid>` nonempty and slash-free. -/
def matchesTokensKey (key suffix : String) : Bool :=
  strStarts key "tokens/" &&
  (let rest := strDrop key 7
   strEnds rest ("/" ++ suffix) &&
   (let mid := strDropRight rest (suffix.length + 1)
    mid.length ≠ 0 && mid.toList.all (· ≠ '/')))

/-- `ALLOWED_PREFIX.test(key)`: the full-anchor regex accepts exactly the
keys `tokens/<mid>/logo.png` and `tokens/<mid>/metadata.json` with `<mid>`
nonempty and free of `/`. -/
def allowedKeyTest (key : String) : Bool :=
  matchesTokensKey key "logo.png" || matchesTokensKey key "metadata.json"

/-- Default public base URL of `getPublicUrl` (`lib/storage.ts`). -/
def CDN_BASE_URL : String := "https://cdn.moltr.app"

/-- `getPublicUrl(key)` from `lib/storage.ts`. -/
def getPublicUrl (key : String) : String :=
  stripOneTrailingSlash CDN_BASE_URL ++ "/" ++ key

/-- Response of `PUT /objects/*`. -/
inductive PutObjectResponse where
  /-- 413 `Payload too large (max 2MB)` — raised either by the Fastify
  `bodyLimit` during body parsing or by the in-handler length check -/
  | payloadTooLarge
  /-- 400 `Invalid key` -/
  | invalidKey
  /-- 400 `Missing or invalid body (expected binary)` -/
  | invalidBody
  /-- 400 `Empty body not allowed` -/
  | emptyBody
  /-- 500 — `decodeURIComponent` threw `URIError` -/
  | uriError
  /-- 502 `Upload failed` -/
  | uploadFailed
  /-- 200 `{ ok, publicUrl }` -/
  | ok (publicUrl : String)
deriving DecidableEq, Repr

/-- The `PUT /objects/*` handler body (`routes/objects.ts` lines 10–52):
normalize the key (`decodeURIComponent` then strip leading slashes), reject
keys outside the allowed pattern, then validate the body (present, within
2 MB, nonempty) and upload. Returns the response together with the object
handed to storage (`none` when nothing was uploaded); `uploadOk` abstracts
the S3 call outcome. -/
def objectsHandler (rawKey : String) (body : Option (List UInt8))
    (uploadOk : Bool) : PutObjectResponse × Option (String × List UInt8) :=
  match jsDecodeUriComponent rawKey with
  | none => (.uriError, none)
  | some decoded =>
    let key := stripLeadingSlashes decoded
    if ¬ allowedKeyTest key then (.invalidKey, none)
    else
      match body with
      | none => (.invalidBody, none)
      | some bytes =>
        if MAX_BODY_SIZE < bytes.length then (.payloadTooLarge, none)
        else if bytes.length = 0 then (.emptyBody, none)
        else if uploadOk then (.ok (getPublicUrl key), some (key, bytes))
        else (.uploadFailed, none)

/-- The whole `PUT /objects/{key}` request path: Fastify enforces
`bodyLimit: MAX_BODY_SIZE` while parsing the body, answering 413 before the
handler runs when the body exceeds 2 MB; otherwise the handler decides. -/
def putObject (rawKey : String) (body : Option (List UInt8)) (uploadOk : Bool) :
    PutObjectResponse × Option (String × List UInt8) :=
  match body with
  | some bytes =>
    if MAX_BODY_SIZE < bytes.length then (.payloadTooLarge, none)
    else objectsHandler rawKey (some bytes) uploadOk
  | none => objectsHandler rawKey none uploadOk

/-! ## Reading of the specification used by the corrected claims -/

/-- The pagination limit as the specification words it: "clamped to the
range [1,100]" (with 20 for an absent value). Differs from
`effectiveLimit` on inputs parsing to `0`, which the code's `|| 20`
replaces by the default instead of clamping to `1`. -/
def specClampLimit (n : Int) : Nat :=
  (min (100 : Int) (max 1 n)).toNat

/-! # Theorems -/

/-! ## Identity resolution (C1, C2) -/

/-- On a store whose hashes all deserialize (as every hash written by
`hashApiKey` does), the scan loop returns exactly the first tag whose
stored hash verifies the presented key. -/
theorem resolveScan_eq_find (hashMatches : String → String → Bool) (k : String)
    (tags : List Tag) (hwf : ∀ t ∈ tags, phcDeserializes t.apiKeyHash = true) :
    resolveScan hashMatches k tags =
      .ok ((tags.find? (fun t => hashMatches t.apiKeyHash k)).map
            (fun t => ⟨t.id, t.username⟩)) := by
  induction tags with
  | nil => rfl
  | cons t ts ih =>
    have ht : phcDeserializes t.apiKeyHash = true := hwf t (List.mem_cons_self t ts)
    have hts : ∀ u ∈ ts, phcDeserializes u.apiKeyHash = true :=
      fun u hu => hwf u (List.mem_cons_of_mem t hu)
    simp only [resolveScan, verifyApiKey, argon2Verify, ht, if_true, List.find?_cons]
    cases h : hashMatches t.apiKeyHash k with
    | true => simp [h]
    | false => simpa [h] using ih hts

/-- A successful resolution can only come from a genuinely verified stored
hash: if the scan returns an identity, some stored credential deserialized
and verified the presented key, and the identity is its projection. -/
theorem resolveScan_ok_some (hashMatches : String → String → Bool) (k : String)
    (tags : List Tag) (ref : TagRef)
    (h : resolveScan hashMatches k tags = .ok (some ref)) :
    ∃ t ∈ tags, phcDeserializes t.apiKeyHash = true ∧
      hashMatches t.apiKeyHash k = true ∧ ref = ⟨t.id, t.username⟩ := by
  induction tags with
  | nil => simp [resolveScan] at h
  | cons t ts ih =>
    simp only [resolveScan, verifyApiKey, argon2Verify] at h
    by_cases hwf : phcDeserializes t.apiKeyHash = true
    · rw [if_pos hwf] at h
      cases hm : hashMatches t.apiKeyHash k with
      | true =>
        refine ⟨t, List.mem_cons_self t ts, hwf, hm, ?_⟩
        rw [hm] at h
        injection h with h
        exact (Option.some.inj h).symm
      | false =>
        rw [hm] at h
        obtain ⟨u, hu, h1, h2, h3⟩ := ih h
        exact ⟨u, List.mem_cons_of_mem t hu, h1, h2, h3⟩
    · rw [if_neg hwf] at h
      exact absurd h (by simp)

/-- C1: `resolveTagFromApiKey` returns none for an absent key and for any
key shorter than 16 characters; otherwise it scans every stored credential
record in order and returns the `{ id, username }` of the first tag whose
stored hash verifies the presented secret (`List.find?`), and none when no
stored hash verifies. The scan clause holds on stores whose hashes
deserialize, which is every store written by the registration path
(argon2 output is always PHC-formatted). -/
theorem resolveTagFromApiKey_spec (hashMatches : String → String → Bool)
    (tags : List Tag) :
    resolveTagFromApiKey hashMatches none tags = .ok none ∧
    (∀ k : String, k.length < 16 →
        resolveTagFromApiKey hashMatches (some k) tags = .ok none) ∧
    (∀ k : String, 16 ≤ k.length →
        (∀ t ∈ tags, phcDeserializes t.apiKeyHash = true) →
        resolveTagFromApiKey hashMatches (some k) tags =
          .ok ((tags.find? (fun t => hashMatches t.apiKeyHash k)).map
                (fun t => ⟨t.id, t.username⟩))) := by
  refine ⟨rfl, fun k hk => ?_, fun k hk hwf => ?_⟩
  · simp [resolveTagFromApiKey, hk]
  · simp only [resolveTagFromApiKey, if_neg (Nat.not_lt.mpr hk)]
    exact resolveScan_eq_find hashMatches k tags hwf

/-- C1 witness: a concrete resolution over one stored credential. -/
theorem resolveTagFromApiKey_spec_witness :
    resolveTagFromApiKey (fun h _ => h = "$argon2id$hash1")
        (some "0123456789abcdef") [⟨"t1", "alice", "w1", "$argon2id$hash1", 0⟩] =
      .ok (some ⟨"t1", "alice"⟩) := by
  have h := (resolveTagFromApiKey_spec (fun h _ => h = "$argon2id$hash1")
      [⟨"t1", "alice", "w1", "$argon2id$hash1", 0⟩]).2.2
      "0123456789abcdef" (by decide) (by decide)
  rw [h]; rfl

/-- C2 counterexample: `verifyApiKey` delegates to `argon2.verify` with no
`try`/`catch`, and the argon2 deserializer throws on a hash that is not in
PHC format (here: the empty string). The call therefore rejects with an
error instead of returning the boolean `false`, refuting "returns a boolean
and never throws; on malformed hash input it returns false". -/
theorem verifyApiKey_throws_on_malformed_hash :
    verifyApiKey (fun _ _ => false) "0123456789abcdef" "" = .error phcErrorMessage ∧
    (Except.error phcErrorMessage : Except String Bool) ≠ .ok false :=
  ⟨rfl, by simp⟩

/-- C2 (amended): `verifyApiKey` returns the boolean verification result
exactly on hashes the argon2 deserializer accepts; on a malformed hash it
propagates the deserialization error instead of returning false. A
verification exception is still never treated as authentication success:
whenever resolution completes with an identity, some stored hash actually
deserialized and verified the presented secret. -/
theorem verifyApiKey_malformed_spec (hashMatches : String → String → Bool) :
    (∀ plain hash, phcDeserializes hash = true →
        verifyApiKey hashMatches plain hash = .ok (hashMatches hash plain)) ∧
    (∀ plain hash, phcDeserializes hash = false →
        verifyApiKey hashMatches plain hash = .error phcErrorMessage) ∧
    (∀ apiKey tags ref,
        resolveTagFromApiKey hashMatches apiKey tags = .ok (some ref) →
        ∃ t ∈ tags, phcDeserializes t.apiKeyHash = true ∧
          hashMatches t.apiKeyHash apiKey.iget = true ∧ ref = ⟨t.id, t.username⟩) := by
  refine ⟨fun plain hash h => ?_, fun plain hash h => ?_, fun apiKey tags ref h => ?_⟩
  · simp [verifyApiKey, argon2Verify, h]
  · simp [verifyApiKey, argon2Verify, h]
  · match apiKey with
    | none => simp [resolveTagFromApiKey] at h
    | some k =>
      simp only [resolveTagFromApiKey] at h
      by_cases hk : k.length < 16
      · simp [hk] at h
      · rw [if_neg hk] at h
        simpa using resolveScan_ok_some hashMatches k tags ref h

/-- C2 witness: the amended behaviour at concrete inputs — a well-formed
hash yields the comparison's boolean. -/
theorem verifyApiKey_malformed_spec_witness :
    verifyApiKey (fun _ _ => true) "secret" "$argon2id$x" = .ok true := by
  have h := (verifyApiKey_malformed_spec (fun _ _ => true)).1 "secret" "$argon2id$x"
      (by decide)
  rw [h]

/-! ## Receipt get-by-id (C3) -/

/-- C3: `GET /receipts/:id` returns a receipt only to one of its two
parties, and a non-party receives a response *identical* to the one for a
nonexistent id — the same 404 value `Receipt not found` — so a non-party
cannot distinguish an existing receipt from a missing one. -/
theorem getReceiptById_spec (db : DB) (reqTag : TagRef) (id : String) :
    (findReceipt db id = none →
        getReceiptById db reqTag id = .notFound "Receipt not found") ∧
    (∀ r, findReceipt db id = some r → isParty reqTag.id r = false →
        getReceiptById db reqTag id = .notFound "Receipt not found") ∧
    (∀ item, getReceiptById db reqTag id = .ok item →
        ∃ r, findReceipt db id = some r ∧ isParty reqTag.id r = true ∧
          item = toReceiptItem db.tags r) := by
  refine ⟨fun h => ?_, fun r hr hp => ?_, fun item h => ?_⟩
  · simp [getReceiptById, h]
  · have hp' : r.fromTagId ≠ reqTag.id ∧ r.toTagId ≠ reqTag.id := by
      simpa [isParty] using hp
    simp [getReceiptById, hr, hp']
  · cases hr : findReceipt db id with
    | none => simp [getReceiptById, hr] at h
    | some r =>
      simp only [getReceiptById, hr] at h
      split_ifs at h with hp
      case _ =>
        refine ⟨r, rfl, ?_, by injection h with h; exact h.symm⟩
        have hor : r.fromTagId = reqTag.id ∨ r.toTagId = reqTag.id := by
          rcases Decidable.not_and_iff_or_not.mp hp with h' | h'
          · exact Or.inl (not_not.mp h')
          · exact Or.inr (not_not.mp h')
        simp [isParty, hor]

/-- C3 witness: a third party gets the very same `Receipt not found`
response an absent id produces. -/
theorem getReceiptById_spec_witness :
    getReceiptById ⟨[], [⟨"r1", "sig", "m", "t1", "t2", 5, 100⟩]⟩ ⟨"t3", "carol"⟩ "r1" =
      .notFound "Receipt not found" :=
  (getReceiptById_spec ⟨[], [⟨"r1", "sig", "m", "t1", "t2", 5, 100⟩]⟩
      ⟨"t3", "carol"⟩ "r1").2.1 ⟨"r1", "sig", "m", "t1", "t2", 5, 100⟩
      (by decide) (by decide)

/-! ## Receipt creation (C4) -/

/-- C4: creation succeeds only when the resolved identity's username is one
of the two named parties and both named usernames exist; a caller that is
neither party receives 403 with the store unchanged; a missing named party
yields a 400 with the store unchanged; and every non-created outcome leaves
the store unchanged (no partial side effects). -/
theorem createReceipt_spec (db : DB) (reqTag : TagRef) (b : CreateBody)
    (freshId : String) (now : Nat) :
    (createBodyValid b = true → reqTag.username ≠ b.fromTag →
        reqTag.username ≠ b.toTag →
        createReceipt db reqTag b freshId now = (.forbidden, db)) ∧
    (createBodyValid b = true →
        (reqTag.username = b.fromTag ∨ reqTag.username = b.toTag) →
        (findTagByUsername db.tags b.fromTag = none ∨
         findTagByUsername db.tags b.toTag = none) →
        createReceipt db reqTag b freshId now = (.partyNotFound, db)) ∧
    (∀ i u, (createReceipt db reqTag b freshId now).1 = .created i u →
        (reqTag.username = b.fromTag ∨ reqTag.username = b.toTag) ∧
        (findTagByUsername db.tags b.fromTag).isSome = true ∧
        (findTagByUsername db.tags b.toTag).isSome = true) ∧
    ((∀ i u, (createReceipt db reqTag b freshId now).1 ≠ .created i u) →
        (createReceipt db reqTag b freshId now).2 = db) := by
  refine ⟨fun hv hf ht => ?_, fun hv hparty hmiss => ?_, fun i u h => ?_, fun h => ?_⟩
  · simp [createReceipt, hv, hf, ht]
  · have hcond : ¬ (reqTag.username ≠ b.fromTag ∧ reqTag.username ≠ b.toTag) := by
      rcases hparty with h | h <;> simp [h]
    rw [createReceipt, if_neg (by simp [hv]), if_neg hcond]
    rcases hmiss with h | h <;>
      cases hF : findTagByUsername db.tags b.fromTag <;>
      cases hT : findTagByUsername db.tags b.toTag <;>
      simp_all
  · unfold createReceipt at h
    by_cases hv : createBodyValid b = true
    · rw [if_neg (by simp [hv])] at h
      by_cases hcond : reqTag.username ≠ b.fromTag ∧ reqTag.username ≠ b.toTag
      · rw [if_pos hcond] at h; exact absurd h (by simp)
      · rw [if_neg hcond] at h
        refine ⟨?_, ?_⟩
        · rcases Decidable.not_and_iff_or_not.mp hcond with h' | h'
          · exact Or.inl (not_not.mp h')
          · exact Or.inr (not_not.mp h')
        · cases hF : findTagByUsername db.tags b.fromTag <;>
            cases hT : findTagByUsername db.tags b.toTag <;>
            rw [hF, hT] at h <;> simp_all
    · rw [if_pos (by simp [hv])] at h; exact absurd h (by simp)
  · unfold createReceipt
    by_cases hv : createBodyValid b = true
    · rw [if_neg (by simp [hv])]
      by_cases hcond : reqTag.username ≠ b.fromTag ∧ reqTag.username ≠ b.toTag
      · rw [if_pos hcond]
      · rw [if_neg hcond]
        cases hF : findTagByUsername db.tags b.fromTag with
        | none => cases hT : findTagByUsername db.tags b.toTag <;> rfl
        | some ft =>
          cases hT : findTagByUsername db.tags b.toTag with
          | none => rfl
          | some tt =>
            exfalso
            apply h freshId (receiptUrl freshId)
            unfold createReceipt
            rw [if_neg (by simp [hv]), if_neg hcond, hF, hT]
    · rw [if_pos (by simp [hv])]

/-- C4 witness: a caller who is neither named party is rejected with 403
and the store is unchanged. -/
theorem createReceipt_spec_witness :
    createReceipt ⟨[⟨"t1", "alice", "w1", "$h1", 0⟩, ⟨"t2", "bob", "w2", "$h2", 0⟩], []⟩
        ⟨"t9", "carol"⟩ ⟨"sig", "", "alice", "bob", 5⟩ "r1" 100 =
      (.forbidden, ⟨[⟨"t1", "alice", "w1", "$h1", 0⟩, ⟨"t2", "bob", "w2", "$h2", 0⟩], []⟩) :=
  (createReceipt_spec ⟨[⟨"t1", "alice", "w1", "$h1", 0⟩, ⟨"t2", "bob", "w2", "$h2", 0⟩], []⟩
      ⟨"t9", "carol"⟩ ⟨"sig", "", "alice", "bob", 5⟩ "r1" 100).1
      (by decide) (by decide) (by decide)

/-! ## Credential-hash confidentiality (C7) -/

/-- Looking a tag up by username commutes with erasing every stored hash. -/
theorem findTagByUsername_erase (tags : List Tag) (u : String) :
    findTagByUsername (tags.map (fun t => { t with apiKeyHash := "" })) u =
      (findTagByUsername tags u).map (fun t => { t with apiKeyHash := "" }) := by
  unfold findTagByUsername
  rw [List.find?_map]
  rfl

/-- Looking a tag up by id commutes with erasing every stored hash. -/
theorem findTagById_erase (tags : List Tag) (tid : String) :
    (tags.map (fun t => { t with apiKeyHash := "" })).find? (fun t => t.id = tid) =
      (tags.find? (fun t => t.id = tid)).map (fun t => { t with apiKeyHash := "" }) := by
  rw [List.find?_map]
  rfl

/-- The username joined into a receipt item does not depend on the stored
hashes. -/
theorem usernameOfTagId_erase (tags : List Tag) (tid : String) :
    usernameOfTagId (tags.map (fun t => { t with apiKeyHash := "" })) tid =
      usernameOfTagId tags tid := by
  unfold usernameOfTagId
  rw [findTagById_erase, Option.map_map]
  rfl

/-- Receipt items do not depend on the stored hashes. -/
theorem toReceiptItem_erase (tags : List Tag) :
    toReceiptItem (tags.map (fun t => { t with apiKeyHash := "" })) =
      toReceiptItem tags := by
  funext r
  unfold toReceiptItem
  rw [usernameOfTagId_erase, usernameOfTagId_erase]

/-- C7: no read operation reveals the credential hash. Erasing every
`apiKeyHash` from the store changes no response: tag lookup returns only
`{ username, walletAddress }`, the wallet update returns only
`{ username, walletAddress }`, and the receipt list and get responses carry
only the parties' usernames — so no response can contain (or depend on) any
stored hash. -/
theorem read_responses_hash_free (db : DB) (rawUsername : String)
    (reqTag : TagRef) (w : String) (q : ListQuery) (id : String) :
    getTagByUsername (eraseApiKeyHashes db) rawUsername = getTagByUsername db rawUsername ∧
    (updateWallet (eraseApiKeyHashes db) reqTag w).1 = (updateWallet db reqTag w).1 ∧
    listReceipts (eraseApiKeyHashes db) reqTag q = listReceipts db reqTag q ∧
    getReceiptById (eraseApiKeyHashes db) reqTag id = getReceiptById db reqTag id := by
  have htags : (eraseApiKeyHashes db).tags =
      db.tags.map (fun t => { t with apiKeyHash := "" }) := rfl
  refine ⟨?_, ?_, ?_, ?_⟩
  · simp only [getTagByUsername, htags, findTagByUsername_erase]
    cases findTagByUsername db.tags (asciiLower rawUsername) <;> rfl
  · simp only [updateWallet, htags, findTagById_erase]
    split_ifs
    · rfl
    · cases db.tags.find? (fun t => t.id = reqTag.id) <;> rfl
  · simp only [listReceipts, htags, toReceiptItem_erase]
    rfl
  · simp only [getReceiptById, htags, toReceiptItem_erase]
    rfl

/-! ## Amount exactness (C8) -/

/-- `Number(bigint)` is the identity on every integer representable as an
IEEE-754 double — in particular on every amount that can arrive through the
API, since request amounts are integer-valued JS numbers. -/
theorem jsNumberFromBigInt_of_isFloat64Int (a : Int) (h : IsFloat64Int a) :
    jsNumberFromBigInt a = a := by
  simp only [jsNumberFromBigInt]
  by_cases hlt : a.natAbs < 2 ^ 53
  · rw [if_pos hlt]
  · rw [if_neg hlt]
    obtain ⟨m, e', hae, hm⟩ := h
    have h53 : 2 ^ 53 ≤ a.natAbs := Nat.not_lt.mp hlt
    have hn0 : a.natAbs ≠ 0 := by positivity
    have hnfact : a.natAbs = m.natAbs * 2 ^ e' := by
      rw [hae, Int.natAbs_mul, Int.natAbs_pow]
      rfl
    have hub : a.natAbs < 2 ^ (53 + e') := by
      rw [hnfact, pow_add]
      exact Nat.mul_lt_mul_of_lt_of_le hm (Nat.le_refl _) (Nat.pos_pow_of_pos e' (by norm_num))
    have hk53 : 53 ≤ a.natAbs.log2 := (Nat.le_log2 hn0).mpr h53
    have hkub : a.natAbs.log2 < 53 + e' := (Nat.log2_lt hn0).mpr hub
    have hee' : a.natAbs.log2 - 52 ≤ e' := by omega
    have hdvd : 2 ^ (a.natAbs.log2 - 52) ∣ a.natAbs := by
      conv_rhs => rw [hnfact]
      exact (pow_dvd_pow 2 hee').trans (dvd_mul_left _ _)
    have hrem : a.natAbs % 2 ^ (a.natAbs.log2 - 52) = 0 :=
      Nat.eq_zero_of_dvd_of_lt (Nat.dvd_mod_iff (dvd_refl _) |>.mpr hdvd)
        (Nat.lt_of_lt_of_le (Nat.mod_lt _ (Nat.pos_pow_of_pos _ (by norm_num)))
          (Nat.le_refl _))
    rw [hrem]
    have hcond : ¬ (2 ^ (a.natAbs.log2 - 52 - 1) < 0 ∨
        (0 = 2 ^ (a.natAbs.log2 - 52 - 1) ∧
          a.natAbs / 2 ^ (a.natAbs.log2 - 52) % 2 = 1)) := by
      push_neg
      refine ⟨Nat.zero_le _, fun h0 => ?_⟩
      exact absurd h0.symm (Nat.pos_iff_ne_zero.mp (Nat.pos_pow_of_pos _ (by norm_num)))
    rw [if_neg hcond]
    have hfin : (↑(a.natAbs / 2 ^ (a.natAbs.log2 - 52)) : ℤ) *
        2 ^ (a.natAbs.log2 - 52) = (a.natAbs : ℤ) := by
      exact_mod_cast congrArg (fun n : ℕ => (n : ℤ)) (Nat.div_mul_cancel hdvd)
    rw [hfin, Int.sign_mul_natAbs]

/-- C8: the receipt amount is accepted exactly when it is a non-negative
integer, with no upper bound enforced (arbitrarily large representable
amounts are accepted); a successful creation appends exactly one row whose
stored `amountLamports` is the supplied integer, exactly (BigInt storage);
and the `amountLamports` projected into the list/get response item
(`toReceiptItem`, used by both `GET /receipts/` and `GET /receipts/:id`)
equals the stored integer with no precision loss, for every value that can
arrive through the API (integer-valued JS numbers are precisely the
`IsFloat64Int` integers). -/
theorem amount_exact_spec :
    (∀ b : CreateBody, 1 ≤ b.signature.length → 1 ≤ b.fromTag.length →
        1 ≤ b.toTag.length → (createBodyValid b = true ↔ 0 ≤ b.amountLamports)) ∧
    (∀ B : Int, ∃ b : CreateBody, createBodyValid b = true ∧
        B < b.amountLamports ∧ IsFloat64Int b.amountLamports) ∧
    (∀ db reqTag b freshId now i u db',
        createReceipt db reqTag b freshId now = (.created i u, db') →
        ∃ r : Receipt, db'.receipts = db.receipts ++ [r] ∧ r.id = freshId ∧
          r.amountLamports = b.amountLamports) ∧
    (∀ (tags : List Tag) (r : Receipt), IsFloat64Int r.amountLamports →
        (toReceiptItem tags r).amountLamports = r.amountLamports) := by
  refine ⟨fun b h1 h2 h3 => ?_, fun B => ?_, ?_, fun tags r h => ?_⟩
  · simp [createBodyValid, h1, h2, h3]
  · refine ⟨⟨"s", "", "f", "t", 2 ^ B.toNat⟩, ?_, ?_, 1, B.toNat, by ring, by norm_num⟩
    · have h0 : (0 : Int) ≤ 2 ^ B.toNat := pow_nonneg (by norm_num) _
      simp [createBodyValid, h0]
      decide
    · calc B ≤ (B.toNat : Int) := Int.self_le_toNat B
        _ < 2 ^ B.toNat := by exact_mod_cast Nat.lt_two_pow B.toNat
  · intro db reqTag b freshId now i u db' h
    unfold createReceipt at h
    split at h
    · simp [Prod.ext_iff] at h
    · split at h
      · simp [Prod.ext_iff] at h
      · split at h
        · rw [Prod.ext_iff] at h
          exact ⟨_, (congrArg DB.receipts h.2).symm, rfl, rfl⟩
        · simp [Prod.ext_iff] at h
  · simpa [toReceiptItem] using jsNumberFromBigInt_of_isFloat64Int r.amountLamports h

/-- C8 witness: a concrete accepted amount and its exact readback. -/
theorem amount_exact_spec_witness :
    createBodyValid ⟨"s", "", "f", "t", 5⟩ = true ∧
    (toReceiptItem [] ⟨"r1", "s", "", "t1", "t2", 5, 0⟩).amountLamports = 5 :=
  ⟨(amount_exact_spec.1 ⟨"s", "", "f", "t", 5⟩ (by decide) (by decide) (by decide)).mpr
      (by decide),
   amount_exact_spec.2.2.2 [] ⟨"r1", "s", "", "t1", "t2", 5, 0⟩
      ⟨5, 0, by norm_num, by norm_num⟩⟩

/-! ## Object upload (C9, C10) -/

/-- C9: an object reaches storage only under a key matching
`tokens/<id>/logo.png` or `tokens/<id>/metadata.json` with a nonempty body
of at most 2 MB; the traversal key `tokens/ABC/../../etc` is rejected with
a 400 and nothing uploaded; any body of exactly 2 MB + 1 byte is rejected
with the 413 payload-too-large signal and nothing uploaded; and a matching
key with a 1-byte body succeeds. -/
theorem putObject_spec :
    (∀ (rawKey : String) (body : Option (List UInt8)) (uploadOk : Bool)
        (key : String) (bytes : List UInt8),
        (putObject rawKey body uploadOk).2 = some (key, bytes) →
        allowedKeyTest key = true ∧ bytes.length ≤ MAX_BODY_SIZE ∧ bytes ≠ []) ∧
    putObject "tokens/ABC/../../etc" (some [0]) true = (.invalidKey, none) ∧
    (∀ (rawKey : String) (uploadOk : Bool) (bytes : List UInt8),
        bytes.length = MAX_BODY_SIZE + 1 →
        putObject rawKey (some bytes) uploadOk = (.payloadTooLarge, none)) ∧
    putObject "tokens/ABC/logo.png" (some [42]) true =
      (.ok "https://cdn.moltr.app/tokens/ABC/logo.png",
       some ("tokens/ABC/logo.png", [42])) := by
  refine ⟨?_, by decide, fun rawKey uploadOk bytes h => ?_, by decide⟩
  · intro rawKey body uploadOk key bytes h
    have hhandler : ∀ (b : Option (List UInt8)),
        (objectsHandler rawKey b uploadOk).2 = some (key, bytes) →
        allowedKeyTest key = true ∧ bytes.length ≤ MAX_BODY_SIZE ∧ bytes ≠ [] := by
      intro b hh
      cases hdec : jsDecodeUriComponent rawKey with
      | none => simp [objectsHandler, hdec] at hh
      | some decoded =>
        by_cases hkey : allowedKeyTest (stripLeadingSlashes decoded) = true
        · cases b with
          | none => simp [objectsHandler, hdec, hkey] at hh
          | some bs =>
            by_cases hbig : MAX_BODY_SIZE < bs.length
            · simp [objectsHandler, hdec, hkey, hbig] at hh
            · by_cases hzero : bs.length = 0
              · simp [objectsHandler, hdec, hkey, hbig, hzero] at hh
              · cases hup : uploadOk with
                | false => simp [objectsHandler, hdec, hkey, hbig, hzero, hup] at hh
                | true =>
                  simp only [objectsHandler, hdec, hkey, hbig, hzero, hup,
                    Bool.true_eq_false, not_false_eq_true, not_true_eq_false,
                    if_true, if_false, ite_true, ite_false, Option.some.injEq,
                    Prod.mk.injEq, not_lt] at hh
                  obtain ⟨hk, hb⟩ := hh
                  subst hk
                  subst hb
                  exact ⟨hkey, Nat.not_lt.mp hbig, fun hnil => hzero (by rw [hnil]; rfl)⟩
        · simp [objectsHandler, hdec, hkey] at hh
    cases body with
    | none =>
      simp only [putObject] at h
      exact hhandler none h
    | some bs =>
      simp only [putObject] at h
      split_ifs at h with hbig
      exact hhandler (some bs) h
  · simp only [putObject]
    rw [if_pos (by rw [h]; exact Nat.lt_succ_self _)]

/-- C9 witness: the oversize clause applied to a concrete body of exactly
2 MB + 1 bytes. -/
theorem putObject_spec_witness :
    putObject "tokens/ABC/logo.png"
        (some (List.replicate (MAX_BODY_SIZE + 1) (0 : UInt8))) true =
      (.payloadTooLarge, none) :=
  putObject_spec.2.2.1 "tokens/ABC/logo.png" true
    (List.replicate (MAX_BODY_SIZE + 1) (0 : UInt8))
    (by simp)

/-- C10: an upload whose key is allowed but whose body is empty is rejected
with the 400 `Empty body not allowed` and nothing reaches storage. -/
theorem putObject_empty_body (rawKey decoded : String) (uploadOk : Bool)
    (hdec : jsDecodeUriComponent rawKey = some decoded)
    (hkey : allowedKeyTest (stripLeadingSlashes decoded) = true) :
    putObject rawKey (some []) uploadOk = (.emptyBody, none) := by
  simp only [putObject, objectsHandler, hdec]
  have h1 : ¬ (MAX_BODY_SIZE < ([] : List UInt8).length) := by simp
  rw [if_neg h1, if_neg (by simp [hkey])]
  rfl

/-- C10 witness: a concrete allowed key with an empty body. -/
theorem putObject_empty_body_witness :
    putObject "tokens/abc/logo.png" (some []) true = (.emptyBody, none) :=
  putObject_empty_body "tokens/abc/logo.png" "tokens/abc/logo.png" true
    (by decide) (by decide)

/-! ## List query helpers (C5, C6) -/

/-- Membership in the ordered query result is membership in the table with
the party filter. -/
theorem mem_receiptsQuery (db : DB) (tagId : String) (r : Receipt) :
    r ∈ receiptsQuery db tagId ↔ (r ∈ db.receipts ∧ isParty tagId r = true) := by
  unfold receiptsQuery
  rw [(List.perm_insertionSort createdDesc _).mem_iff, List.mem_filter]

/-- The clamp `Math.min(100, Math.max(1, …))` keeps every value in [1,100]. -/
theorem limit_clamp_bounds (p : Int) :
    1 ≤ (min (MAX_LIMIT : Int) (max 1 p)).toNat ∧
    (min (MAX_LIMIT : Int) (max 1 p)).toNat ≤ 100 := by
  have h1 : (1 : Int) ≤ min (MAX_LIMIT : Int) (max 1 p) :=
    le_min (by norm_num [MAX_LIMIT]) (le_max_left _ _)
  have h2 : min (MAX_LIMIT : Int) (max 1 p) ≤ 100 :=
    le_trans (min_le_left _ _) (by norm_num [MAX_LIMIT])
  omega

/-- The effective limit always lands in [1,100]. -/
theorem effectiveLimit_bounds (q : Option String) :
    1 ≤ effectiveLimit q ∧ effectiveLimit q ≤ 100 := by
  unfold effectiveLimit
  exact limit_clamp_bounds _

/-- An absent limit parameter gives the default of 20. -/
theorem effectiveLimit_none : effectiveLimit none = 20 := by decide

/-- With distinct ids, searching for the id of the element at position `i`
finds exactly position `i`. -/
theorem findIdx?_id_of_nodup (l : List Receipt)
    (hnd : (l.map Receipt.id).Nodup) (i : Nat) (x : Receipt)
    (hx : l[i]? = some x) :
    l.findIdx? (fun r => r.id = x.id) = some i := by
  induction l generalizing i with
  | nil => simp at hx
  | cons y ys ih =>
    rw [List.map_cons, List.nodup_cons] at hnd
    cases i with
    | zero =>
      rw [List.getElem?_cons_zero, Option.some.injEq] at hx
      subst hx
      rw [List.findIdx?_cons, if_pos (by simp)]
    | succ i =>
      rw [List.getElem?_cons_succ] at hx
      have hxmem : x ∈ ys := by
        obtain ⟨hlt, hg⟩ := List.getElem?_eq_some.mp hx
        exact hg ▸ List.getElem_mem hlt
      have hne : ¬ (y.id = x.id) := fun h => hnd.1 (h ▸ List.mem_map_of_mem Receipt.id hxmem)
      rw [List.findIdx?_cons, if_neg (by simp [hne]), List.findIdx?_succ,
        ih hnd.2 i hx]
      rfl

/-- The last element of a nonempty initial segment. -/
theorem getLast?_take_of_le {α : Type} (l : List α) (n : Nat) (h1 : 1 ≤ n)
    (h2 : n ≤ l.length) :
    (l.take n).getLast? = l[n - 1]? := by
  rw [List.getLast?_eq_getElem?, List.length_take, Nat.min_eq_left h2,
    List.getElem?_take]
  rw [if_pos (by omega)]

/-- The cursor anchors strictly after the row carrying the cursor id. -/
theorem afterCursor_getElem (l : List Receipt)
    (hnd : (l.map Receipt.id).Nodup) (i : Nat) (x : Receipt)
    (hx : l[i]? = some x) :
    afterCursor l (some x.id) = l.drop (i + 1) := by
  simp only [afterCursor]
  rw [findIdx?_id_of_nodup l hnd i x hx]

/-- Closed form of the list handler: the items are the first `limit` rows
after the cursor, and `nextCursor` is the last returned id exactly when
more rows remain. -/
theorem listReceipts_eq (db : DB) (reqTag : TagRef) (q : ListQuery)
    (hn : 1 ≤ effectiveLimit q.limit) :
    listReceipts db reqTag q =
      { items := ((afterCursor (receiptsQuery db reqTag.id) (parseCursor q.cursor)).take
          (effectiveLimit q.limit)).map (toReceiptItem db.tags),
        nextCursor :=
          if effectiveLimit q.limit <
              (afterCursor (receiptsQuery db reqTag.id) (parseCursor q.cursor)).length then
            (((afterCursor (receiptsQuery db reqTag.id) (parseCursor q.cursor)).take
              (effectiveLimit q.limit)).getLast?).map Receipt.id
          else none } := by
  set L := receiptsQuery db reqTag.id with hL
  set n := effectiveLimit q.limit with hnn
  set rest := afterCursor L (parseCursor q.cursor) with hrest
  have htt : (rest.take (n + 1)).take n = rest.take n := by
    rw [List.take_take, Nat.min_eq_left (Nat.le_succ n)]
  have hlen : (rest.take (n + 1)).length = min (n + 1) rest.length :=
    List.length_take _ _
  unfold listReceipts
  rw [ListResponse.mk.injEq]
  constructor
  · rw [← hL, ← hnn, ← hrest, htt]
  · rw [← hL, ← hnn, ← hrest, htt, hlen]
    by_cases hmore : n < rest.length
    · have hc1 : n < min (n + 1) rest.length := lt_min (Nat.lt_succ_self n) hmore
      have hc2 : 0 < ((rest.take n).map (toReceiptItem db.tags)).length := by
        rw [List.length_map, List.length_take]
        exact lt_min hn (lt_of_lt_of_le hn (Nat.le_of_lt hmore))
      rw [if_pos ⟨by simpa using hc1, hc2⟩, if_pos hmore,
        List.getLast?_map, Option.map_map]
      rfl
    · have hc1 : ¬ (n < min (n + 1) rest.length) := by
        rw [Nat.lt_min]
        exact fun h => hmore h.2
      rw [if_neg hmore, if_neg (by simp [hc1])]

/-! ## Listing order (C6) -/

/-- C6 counterexample: the query orders by `createdAt` descending only — no
secondary key. Two stores holding the *same* set of receipts (two rows tied
on `createdAt`) in different physical row orders produce different list
orders, so the ordering is not total/deterministic and is not tie-broken by
the record id: the first store yields ids `b, a`, the second `a, b`. -/
theorem receiptsQuery_ties_not_deterministic :
    (DB.mk [] [⟨"b", "s", "", "t1", "t2", 1, 100⟩, ⟨"a", "s", "", "t1", "t2", 1, 100⟩]).receipts.Perm
      (DB.mk [] [⟨"a", "s", "", "t1", "t2", 1, 100⟩, ⟨"b", "s", "", "t1", "t2", 1, 100⟩]).receipts ∧
    receiptsQuery ⟨[], [⟨"b", "s", "", "t1", "t2", 1, 100⟩, ⟨"a", "s", "", "t1", "t2", 1, 100⟩]⟩ "t1" =
      [⟨"b", "s", "", "t1", "t2", 1, 100⟩, ⟨"a", "s", "", "t1", "t2", 1, 100⟩] ∧
    receiptsQuery ⟨[], [⟨"a", "s", "", "t1", "t2", 1, 100⟩, ⟨"b", "s", "", "t1", "t2", 1, 100⟩]⟩ "t1" =
      [⟨"a", "s", "", "t1", "t2", 1, 100⟩, ⟨"b", "s", "", "t1", "t2", 1, 100⟩] := by
  refine ⟨?_, by decide, by decide⟩
  exact List.Perm.swap _ _ _

/-- C6 (amended): the list query returns exactly the records where the
authenticated identity is `fromTagId` or `toTagId`, ordered by `createdAt`
descending; records with equal `createdAt` are returned in store order — no
secondary sort key is applied, so the relative order of ties is not
determined by the record contents. -/
theorem receiptsQuery_spec (db : DB) (tagId : String) :
    (∀ r : Receipt, r ∈ receiptsQuery db tagId ↔
        (r ∈ db.receipts ∧ isParty tagId r = true)) ∧
    List.Sorted createdDesc (receiptsQuery db tagId) := by
  exact ⟨mem_receiptsQuery db tagId, List.sorted_insertionSort createdDesc _⟩

/-! ## Pagination chain (C5) -/

/-- One request step of the page chain. -/
theorem collectPages_succ (db : DB) (reqTag : TagRef) (lp c : Option String)
    (fuel : Nat) :
    collectPages db reqTag lp c (fuel + 1) =
      (listReceipts db reqTag ⟨lp, c⟩).items ++
        (match (listReceipts db reqTag ⟨lp, c⟩).nextCursor with
         | none => []
         | some c2 => collectPages db reqTag lp (some c2) fuel) := rfl

/-- Resuming the chain from the id at position `i` of the ordered result
yields exactly the rows strictly after position `i`, provided ids are
distinct (primary key), survive `trim` unchanged and are nonempty (so the
echoed cursor parses back to itself). -/
theorem collectPages_from (db : DB) (reqTag : TagRef) (limitParam : Option String)
    (hnd : ((receiptsQuery db reqTag.id).map Receipt.id).Nodup)
    (hids : ∀ r ∈ db.receipts, jsTrim r.id = r.id ∧ r.id ≠ "") :
    ∀ (fuel i : Nat) (x : Receipt),
      (receiptsQuery db reqTag.id)[i]? = some x →
      (receiptsQuery db reqTag.id).length - i ≤ fuel →
      collectPages db reqTag limitParam (some x.id) fuel =
        ((receiptsQuery db reqTag.id).drop (i + 1)).map (toReceiptItem db.tags) := by
  intro fuel
  induction fuel with
  | zero =>
    intro i x hx hfuel
    obtain ⟨hlt, _⟩ := List.getElem?_eq_some.mp hx
    omega
  | succ fuel ih =>
    intro i x hx hfuel
    set L := receiptsQuery db reqTag.id with hL
    set n := effectiveLimit limitParam with hn
    have hn1 : 1 ≤ n := (effectiveLimit_bounds limitParam).1
    have hxL : x ∈ L := by
      obtain ⟨hlt, hg⟩ := List.getElem?_eq_some.mp hx
      exact hg ▸ List.getElem_mem hlt
    have hxdb : x ∈ db.receipts := ((mem_receiptsQuery db reqTag.id x).mp hxL).1
    have hid := hids x hxdb
    have hcur : parseCursor (some x.id) = some x.id := by
      simp only [parseCursor, hid.1]
      rw [if_neg hid.2]
    have hafter : afterCursor L (some x.id) = L.drop (i + 1) :=
      afterCursor_getElem L hnd i x hx
    have hresp := listReceipts_eq db reqTag ⟨limitParam, some x.id⟩ hn1
    dsimp only at hresp
    rw [hcur, hafter] at hresp
    rw [collectPages_succ, hresp]
    dsimp only
    by_cases hmore : n < (L.drop (i + 1)).length
    · rw [if_pos hmore, getLast?_take_of_le _ n hn1 (le_of_lt hmore)]
      have hidx : (L.drop (i + 1))[n - 1]? = L[i + n]? := by
        rw [List.getElem?_drop]
        congr 1
        omega
      have hin : i + n < L.length := by
        rw [List.length_drop] at hmore
        omega
      rw [hidx, List.getElem?_eq_getElem hin, Option.map_some']
      dsimp only
      rw [ih (i + n) _ (List.getElem?_eq_getElem hin) (by omega)]
      rw [← List.map_append]
      congr 1
      have hdd : L.drop (i + n + 1) = (L.drop (i + 1)).drop n := by
        rw [List.drop_drop]
        congr 1
        omega
      rw [hdd, List.take_append_drop]
    · rw [if_neg hmore, List.take_of_length_le (Nat.not_lt.mp hmore),
        List.append_nil]

/-- Starting from the first page (no cursor) with enough fuel, the chained
pages concatenate to the whole ordered result — every matching record,
no duplicates, no omissions. -/
theorem collectPages_all (db : DB) (reqTag : TagRef) (limitParam : Option String)
    (hnd : ((receiptsQuery db reqTag.id).map Receipt.id).Nodup)
    (hids : ∀ r ∈ db.receipts, jsTrim r.id = r.id ∧ r.id ≠ "") :
    collectPages db reqTag limitParam none ((receiptsQuery db reqTag.id).length + 1) =
      (receiptsQuery db reqTag.id).map (toReceiptItem db.tags) := by
  set L := receiptsQuery db reqTag.id with hL
  set n := effectiveLimit limitParam with hn
  have hn1 : 1 ≤ n := (effectiveLimit_bounds limitParam).1
  have hresp := listReceipts_eq db reqTag ⟨limitParam, none⟩ hn1
  dsimp only at hresp
  have hafter : afterCursor L none = L := rfl
  rw [show parseCursor none = none from rfl, hafter] at hresp
  rw [collectPages_succ, hresp]
  dsimp only
  by_cases hmore : n < L.length
  · rw [if_pos hmore, getLast?_take_of_le L n hn1 (le_of_lt hmore)]
    have hin : n - 1 < L.length := by omega
    rw [List.getElem?_eq_getElem hin, Option.map_some']
    dsimp only
    rw [collectPages_from db reqTag limitParam hnd hids L.length (n - 1) _
      (List.getElem?_eq_getElem hin) (by simp only [← hL]; omega)]
    rw [show n - 1 + 1 = n from by omega, ← List.map_append, List.take_append_drop]
  · rw [if_neg hmore, List.take_of_length_le (Nat.not_lt.mp hmore),
      List.append_nil]

/-- C5 counterexample: the code computes the limit as
`parseInt(q) || 20` before clamping, so a supplied `limit=0` — which the
specification's "clamped to [1,100]" would send to 1 — falls back to the
default 20 instead, and a page may carry more than the clamped limit of
1 item: here 2 items come back. -/
theorem listReceipts_limit_zero_not_clamped :
    jsParseInt "0" = some 0 ∧
    specClampLimit 0 = 1 ∧
    (listReceipts
        ⟨[⟨"t1", "alice", "w", "$h", 0⟩],
         [⟨"a", "s", "", "t1", "t1", 1, 100⟩, ⟨"b", "s", "", "t1", "t1", 1, 200⟩]⟩
        ⟨"t1", "alice"⟩ ⟨some "0", none⟩).items.length = 2 := by
  refine ⟨by decide, by decide, by decide⟩

/-- C5 (amended): the list operation returns at most `limit` items, where
`limit` defaults to 20 when the parameter is absent, non-numeric, or parses
to 0 (the code's `|| 20` treats 0 as unset), and is otherwise clamped to
[1,100]; with a cursor that is the id at position `i` of the ordering, the
returned items are exactly the `limit` rows starting strictly after
position `i`; `nextCursor` is present — and equal to the last returned id —
exactly when more matching rows remain beyond the returned page; and
following the chain of cursors from the first page concatenates to every
matching record in order, with no duplicates or omissions (given distinct,
trim-stable, nonempty row ids, as the store's primary keys are). -/
theorem listReceipts_pagination_spec (db : DB) (reqTag : TagRef) (q : ListQuery) :
    (1 ≤ effectiveLimit q.limit ∧ effectiveLimit q.limit ≤ 100) ∧
    (q.limit = none → effectiveLimit q.limit = 20) ∧
    (listReceipts db reqTag q).items.length ≤ effectiveLimit q.limit ∧
    (∀ (i : Nat) (x : Receipt),
        ((receiptsQuery db reqTag.id).map Receipt.id).Nodup →
        (receiptsQuery db reqTag.id)[i]? = some x →
        parseCursor q.cursor = some x.id →
        (listReceipts db reqTag q).items =
          (((receiptsQuery db reqTag.id).drop (i + 1)).take
            (effectiveLimit q.limit)).map (toReceiptItem db.tags)) ∧
    (∀ s, (listReceipts db reqTag q).nextCursor = some s →
        effectiveLimit q.limit <
          (afterCursor (receiptsQuery db reqTag.id) (parseCursor q.cursor)).length ∧
        ((listReceipts db reqTag q).items.getLast?).map ReceiptItem.id = some s) ∧
    ((listReceipts db reqTag q).nextCursor = none →
        (afterCursor (receiptsQuery db reqTag.id) (parseCursor q.cursor)).length ≤
          effectiveLimit q.limit) ∧
    (((receiptsQuery db reqTag.id).map Receipt.id).Nodup →
        (∀ r ∈ db.receipts, jsTrim r.id = r.id ∧ r.id ≠ "") →
        collectPages db reqTag q.limit none ((receiptsQuery db reqTag.id).length + 1) =
          (receiptsQuery db reqTag.id).map (toReceiptItem db.tags)) := by
  set L := receiptsQuery db reqTag.id with hL
  set n := effectiveLimit q.limit with hn
  have hn1 : 1 ≤ n := (effectiveLimit_bounds q.limit).1
  have hresp := listReceipts_eq db reqTag q hn1
  rw [← hn] at hresp
  refine ⟨effectiveLimit_bounds q.limit, fun h => by rw [hn, h, effectiveLimit_none],
    ?_, ?_, ?_, ?_, ?_⟩
  · rw [hresp]
    dsimp only
    rw [List.length_map, List.length_take]
    exact Nat.min_le_left _ _
  · intro i x hnd hx hc
    have hafter : afterCursor L (some x.id) = L.drop (i + 1) :=
      afterCursor_getElem L hnd i x hx
    rw [hresp]
    dsimp only
    rw [hc, hafter]
  · intro s hs
    rw [hresp] at hs
    dsimp only at hs
    by_cases hmore : n < (afterCursor L (parseCursor q.cursor)).length
    · refine ⟨hmore, ?_⟩
      rw [if_pos hmore] at hs
      rw [hresp]
      dsimp only
      rw [List.getLast?_map, Option.map_map]
      exact hs
    · rw [if_neg hmore] at hs
      exact absurd hs (by simp)
  · intro hnone
    rw [hresp] at hnone
    dsimp only at hnone
    by_cases hmore : n < (afterCursor L (parseCursor q.cursor)).length
    · rw [if_pos hmore] at hnone
      have hlen : 1 ≤ ((afterCursor L (parseCursor q.cursor)).take n).length := by
        rw [List.length_take]
        exact lt_min hn1 (lt_of_lt_of_le hn1 (Nat.le_of_lt hmore))
      have hidx : ((afterCursor L (parseCursor q.cursor)).take n).length - 1 <
          ((afterCursor L (parseCursor q.cursor)).take n).length := by omega
      rw [List.getLast?_eq_getElem?, List.getElem?_eq_getElem hidx] at hnone
      exact absurd hnone (by simp)
    · exact Nat.not_lt.mp hmore
  · exact collectPages_all db reqTag q.limit

/-- C5 witness: a concrete three-row store listed with `limit=2`; the
chained pages concatenate to the full ordered result. -/
theorem listReceipts_pagination_spec_witness :
    collectPages
        ⟨[⟨"t1", "alice", "w", "$h", 0⟩],
         [⟨"a", "s", "", "t1", "t1", 1, 100⟩, ⟨"b", "s", "", "t1", "t1", 1, 200⟩,
          ⟨"c", "s", "", "t1", "t1", 1, 300⟩]⟩
        ⟨"t1", "alice"⟩ (some "2") none
        ((receiptsQuery
          ⟨[⟨"t1", "alice", "w", "$h", 0⟩],
           [⟨"a", "s", "", "t1", "t1", 1, 100⟩, ⟨"b", "s", "", "t1", "t1", 1, 200⟩,
            ⟨"c", "s", "", "t1", "t1", 1, 300⟩]⟩ "t1").length + 1) =
      (receiptsQuery
        ⟨[⟨"t1", "alice", "w", "$h", 0⟩],
         [⟨"a", "s", "", "t1", "t1", 1, 100⟩, ⟨"b", "s", "", "t1", "t1", 1, 200⟩,
          ⟨"c", "s", "", "t1", "t1", 1, 300⟩]⟩ "t1").map
        (toReceiptItem [⟨"t1", "alice", "w", "$h", 0⟩]) :=
  (listReceipts_pagination_spec
      ⟨[⟨"t1", "alice", "w", "$h", 0⟩],
       [⟨"a", "s", "", "t1", "t1", 1, 100⟩, ⟨"b", "s", "", "t1", "t1", 1, 200⟩,
        ⟨"c", "s", "", "t1", "t1", 1, 300⟩]⟩
      ⟨"t1", "alice"⟩ ⟨some "2", none⟩).2.2.2.2.2.2
    (by decide) (by decide)

end Moltr
